import Mathlib

/-!
Verification of the assessment-analytics data pipeline.

The definitions below are a shallow embedding of the Python sources
`modules/data_loader.py`, `modules/statistics.py` and the relevant parts of
`app.py`.  Spreadsheet cells are modelled as `String` (pandas reads them with
`dtype=str`); a cell that may be missing (NaN) is modelled as `Option String`.
Numeric scores are modelled as `ℚ`; a numeric coercion that may fail
(`pd.to_numeric(errors = coerce)`) is modelled as `Option ℚ`.  A Python
function that can raise on some input is modelled as returning `Option`,
with `none` standing for the raised exception.
-/

/-! ### String utilities -/

/-- Python `str.strip()` on the character list: drop whitespace at both ends. -/
def trimChars (l : List Char) : List Char :=
  ((l.dropWhile Char.isWhitespace).reverse.dropWhile Char.isWhitespace).reverse

/-- Python `str.strip()`. -/
def strTrim (s : String) : String :=
  String.mk (trimChars s.data)

/-- Substring containment on character lists (Python `pat in s`). -/
def containsSub (pat : List Char) : List Char → Bool
  | [] => pat.isEmpty
  | c :: t => pat.isPrefixOf (c :: t) || containsSub pat t

/-- Python `pat in s` for strings. -/
def strContains (s pat : String) : Bool :=
  containsSub pat.data s.data

/-! ### Identity normalizer (`data_loader.py`) -/

/-- Python `str.zfill(2)`: left-pad with zeros to width 2 (no truncation). -/
def zfill2 (l : List Char) : List Char :=
  if l.length < 2 then List.replicate (2 - l.length) '0' ++ l else l

/-- The match of the regex pattern digits-separator-digits anchored at both
ends, used by `is_class_num_format` and `parse_class_num_to_id`
(`data_loader.py` lines 81 and 103).  Returns the two digit groups on a
match.  The first group of the regex is greedy, and the separator is not a
digit, so the first group is exactly the maximal digit prefix. -/
def classNumParts (l : List Char) : Option (List Char × List Char) :=
  let d1 := l.takeWhile (·.isDigit)
  match l.dropWhile (·.isDigit) with
  | [] => none
  | c :: rest =>
    if (c = '/' || c = '-') && !d1.isEmpty && !rest.isEmpty && rest.all (·.isDigit)
    then some (d1, rest) else none

/-- `parse_class_num_to_id` (`data_loader.py` lines 84-108): trim, match the
class/seat pattern, and on success build the fixed grade digit 2 followed by
both groups zero-padded with `zfill(2)`; otherwise return the empty string. -/
def parse_class_num_to_id (s : String) : String :=
  match classNumParts (strTrim s).data with
  | some (c, n) => String.mk ('2' :: (zfill2 c ++ zfill2 n))
  | none => ""

/-- `looks_like_korean_name` (`data_loader.py` lines 39-60): after trimming,
length in [2,5] and every character in the Hangul syllable range. -/
def looks_like_korean_name (s : String) : Bool :=
  let t := (strTrim s).data
  2 ≤ t.length && t.length ≤ 5 && t.all fun c => decide ('가' ≤ c) && decide (c ≤ '힣')

/-! ### Grade-roster extractor (`load_grade_reports`, `data_loader.py` lines 286-377)

The preview window (`pd.read_excel(nrows = 30, header = None, dtype = str)`)
is a list of rows of cells.  For the header scan a cell is a `String` (the
scan applies `str(val)`, so missing cells become the literal text nan and
match no keyword; we model them as arbitrary strings).  For the data grid
used by the name-column validation a cell is `Option String` (NaN possible).
-/

/-- One row of the header scan: index of the first cell satisfying `pred`,
counting from column `c`. -/
def firstHitRow (pred : String → Bool) : ℕ → List String → Option ℕ
  | _, [] => none
  | c, v :: t => if pred v then some c else firstHitRow pred (c + 1) t

/-- Row-major scan of the preview for the first cell satisfying `pred`,
returning its (row, column).  This is what the loop at `data_loader.py`
lines 313-322 computes independently for the name keywords and for the
achievement keywords: each pair of indices is overwritten only while it is
still -1, so it records the first hit in row-major order. -/
def firstHit (pred : String → Bool) : ℕ → List (List String) → Option (ℕ × ℕ)
  | _, [] => none
  | r, row :: rest =>
    match firstHitRow pred 0 row with
    | some c => some (r, c)
    | none => firstHit pred (r + 1) rest

/-- Name-column header keywords (`data_loader.py` line 317). -/
def isNameKw (v : String) : Bool := strContains v "성명" || strContains v "이름"

/-- Achievement-column header keywords (`data_loader.py` line 320). -/
def isGradeKw (v : String) : Bool := strContains v "성취도" || strContains v "등급"

/-- Whether `load_grade_reports` extracts rows from a file rather than
skipping it: the branch at `data_loader.py` line 324 requires
`name_col_idx != -1 and grade_col_idx != -1`. -/
def rosterFileProcessed (preview : List (List String)) : Bool :=
  (firstHit isNameKw 0 preview).isSome && (firstHit isGradeKw 0 preview).isSome

/-- The local predicate `looks_like_name` of `load_grade_reports`
(`data_loader.py` lines 329-332): cell present, printed length at least 2,
and no digit character. -/
def looksLikeName : Option String → Bool
  | none => false
  | some s => 2 ≤ s.length && !(s.data.any (·.isDigit))

/-- `looks_like_korean_name` lifted to a possibly-missing cell (the source
function returns False on NaN input). -/
def looksLikeKoreanNameOpt : Option String → Bool
  | none => false
  | some s => looks_like_korean_name s

/-- `g_raw.iloc[:10, c].tolist()`: the first ten cells of column `c` of the
data grid. -/
def colSample (g : List (List (Option String))) (c : ℕ) : List (Option String) :=
  (g.take 10).map fun row => row.getD c none

/-- Number of the ten sampled cells of column `c` passing `looks_like_name`
(`valid_count` at `data_loader.py` line 335). -/
def nameHits (g : List (List (Option String))) (c : ℕ) : ℕ :=
  (colSample g c).countP looksLikeName

/-- Number of the ten sampled cells of column `c` passing
`looks_like_korean_name`. -/
def koreanHits (g : List (List (Option String))) (c : ℕ) : ℕ :=
  (colSample g c).countP looksLikeKoreanNameOpt

/-- The name-column correction of `load_grade_reports` (`data_loader.py`
lines 334-343): keep `nameCol` when at least 3 of its first ten cells pass
`looks_like_name`; otherwise try offsets 1, 2, 3 to the right (each only
when still inside the `ncols` columns of the frame) and move to the first
offset whose column passes; keep `nameCol` when none does. -/
def fixNameCol (g : List (List (Option String))) (ncols nameCol : ℕ) : ℕ :=
  if 3 ≤ nameHits g nameCol then nameCol
  else if nameCol + 1 < ncols ∧ 3 ≤ nameHits g (nameCol + 1) then nameCol + 1
  else if nameCol + 2 < ncols ∧ 3 ≤ nameHits g (nameCol + 2) then nameCol + 2
  else if nameCol + 3 < ncols ∧ 3 ≤ nameHits g (nameCol + 3) then nameCol + 3
  else nameCol

/-- Modelled from the spec (section 4.4): the same correction step as
`fixNameCol` but validating with the Korean-name predicate, as the spec
describes it.  Used only to compare the source behaviour against the
spec's words. -/
def fixNameColSpec (g : List (List (Option String))) (ncols nameCol : ℕ) : ℕ :=
  if 3 ≤ koreanHits g nameCol then nameCol
  else if nameCol + 1 < ncols ∧ 3 ≤ koreanHits g (nameCol + 1) then nameCol + 1
  else if nameCol + 2 < ncols ∧ 3 ≤ koreanHits g (nameCol + 2) then nameCol + 2
  else if nameCol + 3 < ncols ∧ 3 ≤ koreanHits g (nameCol + 3) then nameCol + 3
  else nameCol

/-! ### Data model of the reconciler (`load_and_merge_data`) -/

/-- One row of the unioned answer-sheet table produced by
`load_answer_sheets`: ID (possibly empty), name, the numeric value of the
raw `Total_Score` cell (`none` when `pd.to_numeric(errors = coerce)` yields
NaN), and the 16 per-item response tokens. -/
structure AnsRow where
  id : String
  name : String
  total : Option ℚ
  items : List String
deriving DecidableEq

/-- One row of the unioned grade-roster table produced by
`load_grade_reports`: ID (possibly empty), name, and the achievement cell
(`none` when the cell is missing). -/
structure GRow where
  id : String
  name : String
  ach : Option String
deriving DecidableEq

/-- One merged student record as returned by `load_and_merge_data`: rows
with a missing achievement have been dropped and `Total_Score` has been
coerced with `fillna(0)`. -/
structure SRec where
  id : String
  name : String
  total : ℚ
  items : List String
  ach : String
deriving DecidableEq

/-- The union step of `load_answer_sheets` (`data_loader.py` lines 276-283):
concatenate the per-file row lists in file order and strip every name.
(The `dropna(subset = [Name])` there drops rows with a missing name; rows in
this model always carry a name, so it keeps every row.) -/
def loadAnswerSheets (files : List (List AnsRow)) : List AnsRow :=
  files.flatten.map fun a => { a with name := strTrim a.name }

/-- ID resolution in the both-present merge (`data_loader.py` lines 457-462):
keep the answer-sheet ID when it is non-empty after stripping, otherwise
take the roster ID. -/
def resolveId (ansId gradeId : String) : String :=
  if strTrim ansId ≠ "" then ansId else gradeId

/-- Both-present merge mode of `load_and_merge_data` (`data_loader.py` lines
434-465 followed by lines 471-472): inner join of the answer-sheet table
with the roster table on `Name` (for each answer row, in order, one output
row per roster row with the same name), ID resolved by `resolveId`,
`Total_Score` coerced with `fillna(0)`, and rows with a missing achievement
dropped (`dropna(subset = [Achievement])`). -/
def mergedBoth (ans : List AnsRow) (grade : List GRow) : List SRec :=
  ans.flatMap fun a =>
    (grade.filter fun g => g.name = a.name).filterMap fun g =>
      match g.ach with
      | none => none
      | some s => some ⟨resolveId a.id g.id, a.name, a.total.getD 0, a.items, s⟩

/-- Roster-only merge mode of `load_and_merge_data` (`data_loader.py` lines
423-428 followed by lines 471-472): one record per roster row with
`Total_Score = 0` and every item response set to the literal token `.`;
rows with a missing achievement are dropped at the end. -/
def mergedRosterOnly (grade : List GRow) : List SRec :=
  grade.filterMap fun g =>
    match g.ach with
    | none => none
    | some s => some ⟨g.id, g.name, 0, List.replicate 16 ".", s⟩

/-- Answer-sheets-only merge mode of `load_and_merge_data` (`data_loader.py`
lines 429-433 followed by lines 471-472): the answer rows with achievement
defaulted to E and `Total_Score` coerced with `fillna(0)`. -/
def mergedAnsOnly (ans : List AnsRow) : List SRec :=
  ans.map fun a => ⟨a.id, a.name, a.total.getD 0, a.items, "E"⟩

/-- The number of distinct names across the two contributing sources.  The
two loaders have already stripped every name (`data_loader.py` lines 281
and 375), so the names carried by `AnsRow` and `GRow` are the trimmed
names. -/
def distinctNames (ans : List AnsRow) (grade : List GRow) : ℕ :=
  (ans.map AnsRow.name ++ grade.map GRow.name).dedup.length

/-! ### Statistics engine (`modules/statistics.py`, `app.py`) -/

/-- `safe_binary` (`statistics.py` lines 242-258): 1 when the stripped token
is the correct marker `.`, else 0. -/
def safe_binary (x : String) : ℕ :=
  if strTrim x = "." then 1 else 0

/-- Python `int()` applied to a number: truncation toward zero. -/
def truncQ (q : ℚ) : ℤ :=
  if 0 ≤ q then ⌊q⌋ else -⌊-q⌋

/-- Python `round()` applied to a number: round half to even. -/
def roundHalfEven (q : ℚ) : ℤ :=
  if q - ⌊q⌋ < 1 / 2 then ⌊q⌋
  else if 1 / 2 < q - ⌊q⌋ then ⌊q⌋ + 1
  else if Even ⌊q⌋ then ⌊q⌋ else ⌊q⌋ + 1

/-- Descending comparison on total score.  `df.nlargest(m, col)` keeps the
first occurrence among ties, which is a stable descending sort followed by
`head(m)`; with this relation `List.insertionSort` is that stable sort. -/
def descTotal (a b : SRec) : Prop := b.total ≤ a.total

/-- Ascending comparison on total score, for `df.nsmallest(m, col)`. -/
def ascTotal (a b : SRec) : Prop := a.total ≤ b.total

instance : DecidableRel descTotal :=
  fun a b => inferInstanceAs (Decidable (b.total ≤ a.total))

instance : DecidableRel ascTotal :=
  fun a b => inferInstanceAs (Decidable (a.total ≤ b.total))

/-- `df.nlargest(m, Total_Score)` (`statistics.py` line 83). -/
def nlargestBy (m : ℕ) (l : List SRec) : List SRec :=
  (l.insertionSort descTotal).take m

/-- `df.nsmallest(m, Total_Score)` (`statistics.py` line 84). -/
def nsmallestBy (m : ℕ) (l : List SRec) : List SRec :=
  (l.insertionSort ascTotal).take m

/-- Number of rows whose response token for item `j` equals the correct
marker `.` (0-based item index: `j = 0` is `Item_1`). -/
def correctCount (l : List SRec) (j : ℕ) : ℕ :=
  l.countP fun r => decide (r.items.getD j "" = ".")

/-- `(group[col].astype(str) == .).mean()`: fraction of rows whose token for
item `j` is the correct marker. -/
def correctFrac (l : List SRec) (j : ℕ) : ℚ :=
  (correctCount l j : ℚ) / (l.length : ℚ)

/-- The group size of `calculate_discrimination_index` (`statistics.py` line
82): `max(1, int(len(df) * percentile))`. -/
def topLen (n : ℕ) (f : ℚ) : ℕ :=
  max 1 (truncQ ((n : ℚ) * f)).toNat

/-- `calculate_discrimination_index` (`statistics.py` lines 82-94) for item
`j`: correct fraction in the top group minus correct fraction in the bottom
group. -/
def discrimination (l : List SRec) (f : ℚ) (j : ℕ) : ℚ :=
  correctFrac (nlargestBy (topLen l.length f) l) j -
    correctFrac (nsmallestBy (topLen l.length f) l) j

/-- Mean of a list of rationals (`pandas` mean; division by zero on the
empty list is the ℚ convention `0`). -/
def meanQ (l : List ℚ) : ℚ :=
  l.sum / l.length

/-- Sum of squared deviations from the mean. -/
def ssd (l : List ℚ) : ℚ :=
  (l.map fun x => (x - meanQ l) ^ 2).sum

/-- The value of the sample variance with `ddof = 1` (meaningful when the
list has at least two entries). -/
def svarVal (l : List ℚ) : ℚ :=
  ssd l / ((l.length : ℚ) - 1)

/-- `pandas` sample variance: NaN (here `none`) on fewer than two values. -/
def svar (l : List ℚ) : Option ℚ :=
  if l.length < 2 then none else some (svarVal l)

/-- `binary_matrix.sum(axis = 1)` for one row of a matrix with `k` item
columns. -/
def rowTotal (k : ℕ) (row : List ℚ) : ℚ :=
  ∑ j ∈ Finset.range k, row.getD j 0

/-- Column `j` of the binary matrix. -/
def colVals (rows : List (List ℚ)) (j : ℕ) : List ℚ :=
  rows.map fun r => r.getD j 0

/-- `calculate_kr20_reliability` (`statistics.py` lines 37-46) on a matrix
with `k` item columns.  `total_var` is the sample variance of the row sums;
when it is 0 or NaN the function returns 0.0.  Otherwise Python evaluates
`k / (k - 1)`, which raises `ZeroDivisionError` when `k = 1`; that raise is
modelled as `none`.  `var_sum` is the sum of the per-column sample
variances. -/
def calculate_kr20_reliability (k : ℕ) (rows : List (List ℚ)) : Option ℚ :=
  match svar (rows.map (rowTotal k)) with
  | none => some 0
  | some v =>
    if v = 0 then some 0
    else if k = 1 then none
    else some (((k : ℚ) / ((k : ℚ) - 1)) *
      (1 - (∑ j ∈ Finset.range k, svarVal (colVals rows j)) / v))

/-- `main_df[item_cols].applymap(safe_binary)` for one merged record
(`app.py` line 1944): the 16 item tokens mapped through `safe_binary`. -/
def binRow (r : SRec) : List ℚ :=
  (List.range 16).map fun j => (safe_binary (r.items.getD j "") : ℚ)

/-! ### Achievement-band classifiers

`get_achievement_score_based` exists twice: in `modules/statistics.py`
(lines 261-325, comparing the raw score) and as a local function in
`app.py` (lines 1864-1911, rounding the score first and with an extra
3-level-plus-not-reached branch).  The score argument is the result of
`pd.to_numeric(errors = coerce)`, so `none` models NaN.  A comparison of
the score with a `None` cut point raises `TypeError` in Python; that raise
is modelled as `none`. -/

/-- The `modules/statistics.py` classifier. -/
def get_achievement_score_based (score : Option ℚ) (cAB cBC : ℚ)
    (cCD cDE cEI : Option ℚ) : Option String :=
  match score with
  | none => some (if cEI.isSome then "미도달" else if cCD.isSome then "E" else "C")
  | some s =>
    match cCD with
    | some ccd =>
      match cEI with
      | some cei =>
        if s ≥ cAB then some "A"
        else if s ≥ cBC then some "B"
        else if s ≥ ccd then some "C"
        else
          match cDE with
          | none => none
          | some cde =>
            if s ≥ cde then some "D"
            else if s ≥ cei then some "E"
            else some "미도달"
      | none =>
        if s ≥ cAB then some "A"
        else if s ≥ cBC then some "B"
        else if s ≥ ccd then some "C"
        else
          match cDE with
          | none => none
          | some cde => if s ≥ cde then some "D" else some "E"
    | none =>
      if s ≥ cAB then some "A" else if s ≥ cBC then some "B" else some "C"

/-- The `app.py` classifier: identical NaN handling, then the score is
rounded (`score = round(score)`, an integer) before every comparison, and
the four cut-point configurations are distinguished explicitly. -/
def appGetAchievement (score : Option ℚ) (cAB cBC : ℚ)
    (cCD cDE cEI : Option ℚ) : Option String :=
  match score with
  | none => some (if cEI.isSome then "미도달" else if cCD.isSome then "E" else "C")
  | some s0 =>
    let s : ℚ := (roundHalfEven s0 : ℤ)
    match cCD, cEI with
    | none, none =>
      if s ≥ cAB then some "A" else if s ≥ cBC then some "B" else some "C"
    | none, some cei =>
      if s ≥ cAB then some "A"
      else if s ≥ cBC then some "B"
      else if s ≥ cei then some "C"
      else some "미도달"
    | some ccd, none =>
      if s ≥ cAB then some "A"
      else if s ≥ cBC then some "B"
      else if s ≥ ccd then some "C"
      else
        match cDE with
        | none => none
        | some cde => if s ≥ cde then some "D" else some "E"
    | some ccd, some cei =>
      if s ≥ cAB then some "A"
      else if s ≥ cBC then some "B"
      else if s ≥ ccd then some "C"
      else
        match cDE with
        | none => none
        | some cde =>
          if s ≥ cde then some "D"
          else if s ≥ cei then some "E"
          else some "미도달"

/-! ## Helper lemmas -/

theorem zfill2_length (l : List Char) : (zfill2 l).length = max 2 l.length := by
  simp only [zfill2]
  split <;> rename_i h <;> simp <;> omega

theorem firstHitRow_eq_none (pred : String → Bool) (c : ℕ) (row : List String) :
    firstHitRow pred c row = none ↔ ∀ v ∈ row, pred v = false := by
  induction row generalizing c with
  | nil => simp [firstHitRow]
  | cons v t ih =>
    by_cases h : pred v <;> simp [firstHitRow, h, ih]

theorem firstHit_eq_none (pred : String → Bool) (r : ℕ) (p : List (List String)) :
    firstHit pred r p = none ↔ ∀ row ∈ p, ∀ v ∈ row, pred v = false := by
  induction p generalizing r with
  | nil => simp [firstHit]
  | cons row rest ih =>
    simp only [firstHit]
    cases h : firstHitRow pred 0 row with
    | some c =>
      have hrow : ¬ ∀ v ∈ row, pred v = false := by
        rw [← firstHitRow_eq_none pred 0]
        simp [h]
      exact iff_of_false (by simp) (by simp only [List.forall_mem_cons]; tauto)
    | none =>
      rw [ih]
      have hrow : ∀ v ∈ row, pred v = false := (firstHitRow_eq_none pred 0 row).mp h
      simp only [List.forall_mem_cons]
      tauto

/-! ## Claim C3 -/

/-- Claim C3 counterexample: the input 123/45 matches the
digits-separator-digits pattern, but the produced ID has 6 characters, not
5 as the claim states, because `zfill(2)` pads and never truncates. -/
theorem parse_class_num_len_counterexample :
    (classNumParts (strTrim "123/45").data).isSome = true ∧
    (parse_class_num_to_id "123/45").length ≠ 5 := by decide

/-- Claim C3 (amended): a trimmed input that does not match the
digits-separator-digits pattern yields the empty string; a matching input
with class part `c` and seat part `n` yields the fixed grade digit 2
followed by both parts zero-padded to at least two digits, so the result
length is `1 + max 2 |c| + max 2 |n|`, which is 5 exactly when both parts
have at most two digits. -/
theorem parse_class_num_amended (s : String) :
    (classNumParts (strTrim s).data = none → parse_class_num_to_id s = "") ∧
    (∀ c n, classNumParts (strTrim s).data = some (c, n) →
      parse_class_num_to_id s = String.mk ('2' :: (zfill2 c ++ zfill2 n)) ∧
      (parse_class_num_to_id s).length = 1 + max 2 c.length + max 2 n.length ∧
      ((parse_class_num_to_id s).length = 5 ↔ c.length ≤ 2 ∧ n.length ≤ 2)) := by
  constructor
  · intro h
    simp [parse_class_num_to_id, h]
  · intro c n h
    have he : parse_class_num_to_id s = String.mk ('2' :: (zfill2 c ++ zfill2 n)) := by
      simp [parse_class_num_to_id, h]
    have hlen : (parse_class_num_to_id s).length = 1 + max 2 c.length + max 2 n.length := by
      rw [he]
      simp [String.length, zfill2_length]
      omega
    refine ⟨he, hlen, ?_⟩
    rw [hlen]
    omega

/-- Claim C3 witness: the amended theorem applied at the non-matching
input abc. -/
theorem parse_class_num_amended_witness : parse_class_num_to_id "abc" = "" :=
  (parse_class_num_amended "abc").1 (by decide)

/-! ## Claim C4 -/

/-- Claim C4 counterexample: a preview whose single cell contains the name
keyword but no achievement keyword.  The name column is located, yet the
file is still skipped, refuting the claim that locating at least one of
the two columns suffices. -/
theorem roster_skip_counterexample :
    (firstHit isNameKw 0 [["성명"]]).isSome = true ∧
    rosterFileProcessed [["성명"]] = false := by decide

/-- Claim C4 (amended): `load_grade_reports` skips a file exactly when at
least one of the two header cells cannot be located in the preview window:
it extracts rows only when both a name-keyword cell and an
achievement-keyword cell are found. -/
theorem roster_skip_amended (preview : List (List String)) :
    rosterFileProcessed preview = false ↔
      (∀ row ∈ preview, ∀ v ∈ row, isNameKw v = false) ∨
      (∀ row ∈ preview, ∀ v ∈ row, isGradeKw v = false) := by
  have hn := firstHit_eq_none isNameKw 0 preview
  have hg := firstHit_eq_none isGradeKw 0 preview
  simp only [rosterFileProcessed, Bool.and_eq_false_iff]
  constructor
  · rintro (h | h)
    · exact Or.inl (hn.mp (by cases hfh : firstHit isNameKw 0 preview <;> simp_all))
    · exact Or.inr (hg.mp (by cases hfh : firstHit isGradeKw 0 preview <;> simp_all))
  · rintro (h | h)
    · exact Or.inl (by simp [hn.mpr h])
    · exact Or.inr (by simp [hg.mpr h])

/-! ## Claim C7 -/

/-- The grid of a roster file whose located name column holds Latin text
and whose next column holds Korean names.  The source validator accepts
the Latin column (length at least 2, no digits), while the spec's
Korean-name validator would reject it and probe one column to the right. -/
def gridKo : List (List (Option String)) :=
  [[some "abcd", some "홍길동"], [some "efgh", some "김철수"], [some "ijkl", some "이영희"]]

/-- Claim C7 counterexample: on `gridKo` the source keeps column 0, whose
cells all fail the Korean-name predicate, while the spec-described
validator moves to column 1; so the validation predicate actually used is
not the Korean-name predicate. -/
theorem name_col_predicate_counterexample :
    fixNameCol gridKo 2 0 = 0 ∧ fixNameColSpec gridKo 2 0 = 1 ∧
    looksLikeName (some "abcd") = true ∧ looksLikeKoreanNameOpt (some "abcd") = false := by
  decide

/-- Claim C7 (amended): the name column of `load_grade_reports` is
validated with the local no-digit, length-at-least-2 predicate
`looks_like_name` (not the Korean-name predicate), with threshold 3 of the
10 sampled cells; when validation passes the column is kept, and when it
fails the extractor moves to the first of the up-to-3 columns to the right
(inside the frame) whose sample passes that same predicate, keeping the
original column when none passes. -/
theorem name_col_fix_amended (g : List (List (Option String))) (ncols nameCol : ℕ) :
    (3 ≤ nameHits g nameCol → fixNameCol g ncols nameCol = nameCol) ∧
    (nameHits g nameCol < 3 →
      ∀ off, 1 ≤ off → off ≤ 3 → nameCol + off < ncols → 3 ≤ nameHits g (nameCol + off) →
        (∀ off2, 1 ≤ off2 → off2 < off →
          ¬(nameCol + off2 < ncols ∧ 3 ≤ nameHits g (nameCol + off2))) →
        fixNameCol g ncols nameCol = nameCol + off) ∧
    (fixNameCol g ncols nameCol = nameCol ∨
      ∃ off, 1 ≤ off ∧ off ≤ 3 ∧ nameCol + off < ncols ∧ 3 ≤ nameHits g (nameCol + off) ∧
        fixNameCol g ncols nameCol = nameCol + off) := by
  refine ⟨?_, ?_, ?_⟩
  · intro h
    simp [fixNameCol, h]
  · intro hfail off h1 h3 hin hpass hmin
    interval_cases off
    · simp only [fixNameCol]
      rw [if_neg (by omega), if_pos ⟨hin, hpass⟩]
    · have h2 := hmin 1 (by omega) (by omega)
      simp only [fixNameCol]
      rw [if_neg (by omega), if_neg h2, if_pos ⟨hin, hpass⟩]
    · have h2 := hmin 1 (by omega) (by omega)
      have h4 := hmin 2 (by omega) (by omega)
      simp only [fixNameCol]
      rw [if_neg (by omega), if_neg h2, if_neg h4, if_pos ⟨hin, hpass⟩]
  · simp only [fixNameCol]
    split
    · exact Or.inl rfl
    split
    · rename_i hc
      exact Or.inr ⟨1, by omega, by omega, hc.1, hc.2, rfl⟩
    split
    · rename_i hc
      exact Or.inr ⟨2, by omega, by omega, hc.1, hc.2, rfl⟩
    split
    · rename_i hc
      exact Or.inr ⟨3, by omega, by omega, hc.1, hc.2, rfl⟩
    · exact Or.inl rfl

/-- Claim C7 witness: the amended theorem applied to `gridKo` with the
validated column passing. -/
theorem name_col_fix_witness : fixNameCol gridKo 2 0 = 0 :=
  (name_col_fix_amended gridKo 2 0).1 (by decide)

/-! ## Claim C2 -/

theorem getD_replicate {α : Type} (a d : α) {n j : ℕ} (h : j < n) :
    (List.replicate n a).getD j d = a := by
  induction n generalizing j with
  | zero => omega
  | succ n ih =>
    cases j with
    | zero => rw [List.replicate_succ, List.getD_cons_zero]
    | succ j =>
      rw [List.replicate_succ, List.getD_cons_succ]
      exact ih (by omega)

theorem filterMap_ach_length (mk : GRow → String → SRec) (l : List GRow)
    (h : ∀ g ∈ l, g.ach ≠ none) :
    (l.filterMap fun g =>
      match g.ach with
      | none => none
      | some s => some (mk g s)).length = l.length := by
  induction l with
  | nil => rfl
  | cons g t ih =>
    obtain ⟨s, hs⟩ := Option.ne_none_iff_exists'.mp (h g (List.mem_cons_self g t))
    simp [List.filterMap_cons, hs, ih fun x hx => h x (List.mem_cons_of_mem g hx)]

/-- Claim C2 counterexample: in roster-only mode every item response is set
to the literal token of a period, and the correct-response test classifies
that token as correct (`safe_binary` returns 1), not as not-correct as the
claim states. -/
theorem roster_only_marker_counterexample :
    (mergedRosterOnly [⟨"", "Kim", some "A"⟩]).map SRec.items = [List.replicate 16 "."] ∧
    safe_binary "." = 1 := by decide

/-- Claim C2 (amended): in roster-only mode, for a roster whose rows all
carry an achievement, the merge produces exactly one record per roster row,
each with total score 0 and every one of the 16 item responses set to the
literal period token, which the correct-response test `safe_binary`
classifies as correct (value 1, not the claimed not-correct). -/
theorem roster_only_amended (grade : List GRow) (h : ∀ g ∈ grade, g.ach ≠ none) :
    (mergedRosterOnly grade).length = grade.length ∧
    ∀ r ∈ mergedRosterOnly grade,
      r.total = 0 ∧ r.items = List.replicate 16 "." ∧
      ∀ j < 16, safe_binary (r.items.getD j "") = 1 := by
  constructor
  · exact filterMap_ach_length (fun g s => ⟨g.id, g.name, 0, List.replicate 16 ".", s⟩) grade h
  · intro r hr
    obtain ⟨g, hg, hgr⟩ := List.mem_filterMap.mp hr
    cases hach : g.ach with
    | none => simp [mergedRosterOnly, hach] at hgr
    | some s =>
      rw [hach] at hgr
      simp only [Option.some.injEq] at hgr
      subst hgr
      refine ⟨rfl, rfl, fun j hj => ?_⟩
      rw [show (⟨g.id, g.name, 0, List.replicate 16 ".", s⟩ : SRec).items =
        List.replicate 16 "." from rfl]
      rw [getD_replicate _ _ hj]
      decide

/-- Claim C2 witness: the amended theorem applied to a one-row roster. -/
theorem roster_only_amended_witness :
    (mergedRosterOnly [(⟨"", "Kim", some "A"⟩ : GRow)]).length = 1 :=
  (roster_only_amended [⟨"", "Kim", some "A"⟩] (by decide)).1

/-! ## Claim C1 -/

theorem filter_name_len (grade : List GRow) (h2 : (grade.map GRow.name).Nodup) (nm : String) :
    (grade.filter fun g => g.name = nm).length =
      if nm ∈ grade.map GRow.name then 1 else 0 := by
  induction grade with
  | nil => simp
  | cons a t ih =>
    simp only [List.map_cons, List.nodup_cons] at h2
    by_cases ha : a.name = nm
    · have ht : (t.filter fun g => g.name = nm).length = 0 := by
        rw [List.length_eq_zero, List.filter_eq_nil_iff]
        intro g hg
        simp only [decide_eq_true_eq]
        intro hgn
        exact h2.1 (List.mem_map.mpr ⟨g, hg, hgn.trans ha.symm⟩)
      simp [List.filter_cons, ha, ht, List.mem_map]
    · have hiff : (nm ∈ List.map GRow.name t) ↔ (nm ∈ a.name :: List.map GRow.name t) := by
        constructor
        · exact List.mem_cons_of_mem _
        · intro hx
          rcases List.mem_cons.mp hx with hx | hx
          · exact absurd hx.symm ha
          · exact hx
      rw [List.filter_cons, if_neg (by simpa using ha), ih h2.2, List.map_cons]
      by_cases hm : nm ∈ List.map GRow.name t
      · rw [if_pos hm, if_pos (hiff.mp hm)]
      · rw [if_neg hm, if_neg fun hx => hm (hiff.mpr hx)]

/-- Claim C1 counterexample: an answer-sheet table with two rows for the
same name Kim and a roster with one row for Kim.  There is one distinct
name, but the inner join without deduplication produces two merged
records, refuting the claimed upper bound (and the claimed equality with
the intersection size, which is 1). -/
theorem merged_count_counterexample :
    distinctNames [⟨"", "Kim", some 10, []⟩, ⟨"", "Kim", some 5, []⟩]
        [⟨"", "Kim", some "A"⟩] = 1 ∧
    (mergedBoth [⟨"", "Kim", some 10, []⟩, ⟨"", "Kim", some 5, []⟩]
        [⟨"", "Kim", some "A"⟩]).length = 2 := by decide

theorem mergedBoth_length (ans : List AnsRow) (grade : List GRow)
    (h2 : (grade.map GRow.name).Nodup) (h3 : ∀ g ∈ grade, g.ach ≠ none) :
    (mergedBoth ans grade).length =
      ((ans.map AnsRow.name).filter fun nm => nm ∈ grade.map GRow.name).length := by
  induction ans with
  | nil => rfl
  | cons a t ih =>
    have hstep : (mergedBoth (a :: t) grade).length =
        ((grade.filter fun g => g.name = a.name).length) + (mergedBoth t grade).length := by
      simp only [mergedBoth, List.flatMap_cons, List.length_append]
      congr 1
      exact filterMap_ach_length
        (fun g s => ⟨resolveId a.id g.id, a.name, a.total.getD 0, a.items, s⟩) _
        fun g hg => h3 g (List.mem_of_mem_filter hg)
    rw [hstep, ih, filter_name_len grade h2 a.name, List.map_cons, List.filter_cons]
    by_cases hm : a.name ∈ grade.map GRow.name
    · rw [if_pos hm, if_pos (by simpa using hm), List.length_cons]
      omega
    · rw [if_neg hm, if_neg (by simpa using hm)]
      omega

theorem merged_le_distinct (ans : List AnsRow) (grade : List GRow)
    (h1 : (ans.map AnsRow.name).Nodup) :
    ((ans.map AnsRow.name).filter fun nm => nm ∈ grade.map GRow.name).length ≤
      distinctNames ans grade := by
  have hnd : ((ans.map AnsRow.name).filter fun nm => nm ∈ grade.map GRow.name).Nodup :=
    List.Nodup.filter _ h1
  have hsub : ((ans.map AnsRow.name).filter fun nm => nm ∈ grade.map GRow.name) ⊆
      (ans.map AnsRow.name ++ grade.map GRow.name).dedup := by
    intro x hx
    rw [List.mem_dedup]
    exact List.mem_append_left _ (List.mem_of_mem_filter hx)
  exact (hnd.subperm hsub).length_le

/-- Claim C1 (amended): when each table has no duplicate names and every
roster row carries an achievement, the both-present merge produces exactly
one record per name in the intersection of the two name lists, and hence no
more records than there are distinct names across the sources.  Without
the no-duplicate hypothesis the bound fails, as the counterexample shows. -/
theorem merged_count_amended (ans : List AnsRow) (grade : List GRow)
    (h1 : (ans.map AnsRow.name).Nodup) (h2 : (grade.map GRow.name).Nodup)
    (h3 : ∀ g ∈ grade, g.ach ≠ none) :
    (mergedBoth ans grade).length =
      ((ans.map AnsRow.name).filter fun nm => nm ∈ grade.map GRow.name).length ∧
    (mergedBoth ans grade).length ≤ distinctNames ans grade := by
  have he := mergedBoth_length ans grade h2 h3
  exact ⟨he, he ▸ merged_le_distinct ans grade h1⟩

/-- Claim C1 witness: the amended theorem applied to one-row tables. -/
theorem merged_count_witness :
    (mergedBoth [(⟨"", "Kim", some 10, []⟩ : AnsRow)] [(⟨"", "Kim", some "A"⟩ : GRow)]).length ≤
      distinctNames [⟨"", "Kim", some 10, []⟩] [⟨"", "Kim", some "A"⟩] :=
  (merged_count_amended _ _ (by decide) (by decide) (by decide)).2

/-! ## Claim C10 -/

/-- Claim C10 counterexample: a one-column matrix with distinct entries
passes the zero-variance guard (the total-score variance is 1/2), and the
division `k / (k - 1)` then divides by zero (modelled as `none`), refuting
the claimed absence of a division by zero. -/
theorem kr20_div_zero_counterexample :
    calculate_kr20_reliability 1 [[0], [1]] = none ∧
    svar ([[(0 : ℚ)], [1]].map (rowTotal 1)) = some (1 / 2) := by
  constructor <;>
    norm_num [calculate_kr20_reliability, svar, svarVal, ssd, meanQ, rowTotal, colVals,
      Finset.sum_range_succ]

/-- Claim C10 (amended): `calculate_kr20_reliability` performs no division
by zero for any matrix with `k ≠ 1` columns; with exactly one column and
nonzero total-score variance the guard is passed and `k / (k - 1)` raises
`ZeroDivisionError`. -/
theorem kr20_no_div_zero_amended (k : ℕ) (rows : List (List ℚ)) (hk : k ≠ 1) :
    (calculate_kr20_reliability k rows).isSome = true := by
  unfold calculate_kr20_reliability
  cases svar (rows.map (rowTotal k)) with
  | none => rfl
  | some v =>
    by_cases hv : v = 0
    · simp [hv]
    · simp [hv, hk]

/-- Claim C10 witness: the amended theorem at a two-column matrix. -/
theorem kr20_no_div_zero_witness :
    (calculate_kr20_reliability 2 [[0, 0], [1, 1]]).isSome = true :=
  kr20_no_div_zero_amended 2 [[0, 0], [1, 1]] (by decide)

/-! ## Claim C6 -/

theorem listSum_finsetSum_comm {α : Type} (rows : List α) (k : ℕ) (f : α → ℕ → ℚ) :
    (rows.map fun r => ∑ j ∈ Finset.range k, f r j).sum =
      ∑ j ∈ Finset.range k, (rows.map fun r => f r j).sum := by
  induction rows with
  | nil => simp
  | cons r t ih => simp [ih, Finset.sum_add_distrib]

theorem ssd_nonneg (l : List ℚ) : 0 ≤ ssd l := by
  apply List.sum_nonneg
  intro x hx
  obtain ⟨y, hy, rfl⟩ := List.mem_map.mp hx
  positivity

theorem svarVal_nonneg (l : List ℚ) (h : 2 ≤ l.length) : 0 ≤ svarVal l := by
  apply div_nonneg (ssd_nonneg l)
  have hc : (2 : ℚ) ≤ (l.length : ℚ) := by exact_mod_cast h
  linarith

theorem meanQ_rowTotals (k : ℕ) (rows : List (List ℚ)) :
    meanQ (rows.map (rowTotal k)) = ∑ j ∈ Finset.range k, meanQ (colVals rows j) := by
  simp only [meanQ, colVals, List.length_map]
  rw [show List.map (rowTotal k) rows =
    List.map (fun r => ∑ j ∈ Finset.range k, r.getD j 0) rows from rfl]
  rw [listSum_finsetSum_comm, Finset.sum_div]

theorem ssd_rowTotals_le (k : ℕ) (rows : List (List ℚ)) :
    ssd (rows.map (rowTotal k)) ≤ (k : ℚ) * ∑ j ∈ Finset.range k, ssd (colVals rows j) := by
  have hL : ssd (rows.map (rowTotal k)) =
      (rows.map fun r =>
        (∑ j ∈ Finset.range k, (r.getD j 0 - meanQ (colVals rows j))) ^ 2).sum := by
    simp only [ssd, List.map_map]
    congr 1
    apply List.map_congr_left
    intro r hr
    simp only [Function.comp_apply, rowTotal, meanQ_rowTotals, ← Finset.sum_sub_distrib]
  rw [hL]
  have h1 : (rows.map fun r =>
        (∑ j ∈ Finset.range k, (r.getD j 0 - meanQ (colVals rows j))) ^ 2).sum ≤
      (rows.map fun r =>
        (k : ℚ) * ∑ j ∈ Finset.range k, (r.getD j 0 - meanQ (colVals rows j)) ^ 2).sum := by
    apply List.sum_le_sum
    intro r hr
    have h2 := sq_sum_le_card_mul_sum_sq (s := Finset.range k)
      (f := fun j => r.getD j 0 - meanQ (colVals rows j))
    simpa [Finset.card_range] using h2
  refine h1.trans (le_of_eq ?_)
  rw [List.sum_map_mul_left, listSum_finsetSum_comm]
  congr 1
  apply Finset.sum_congr rfl
  intro j hj
  simp [ssd, colVals, List.map_map, Function.comp_def]

theorem svarVal_rowTotals_le (k : ℕ) (rows : List (List ℚ)) (hn : 2 ≤ rows.length) :
    svarVal (rows.map (rowTotal k)) ≤ (k : ℚ) * ∑ j ∈ Finset.range k, svarVal (colVals rows j) := by
  have hpos : (0 : ℚ) < (rows.length : ℚ) - 1 := by
    have hc : (2 : ℚ) ≤ (rows.length : ℚ) := by exact_mod_cast hn
    linarith
  simp only [svarVal, List.length_map, colVals]
  calc ssd (rows.map (rowTotal k)) / ((rows.length : ℚ) - 1)
      ≤ ((k : ℚ) * ∑ j ∈ Finset.range k, ssd (rows.map fun r => r.getD j 0)) /
          ((rows.length : ℚ) - 1) := by
        apply div_le_div_of_nonneg_right ?_ hpos.le
        simpa [colVals] using ssd_rowTotals_le k rows
    _ = (k : ℚ) * ∑ j ∈ Finset.range k,
          ssd (rows.map fun r => r.getD j 0) / ((rows.length : ℚ) - 1) := by
        rw [mul_div_assoc, Finset.sum_div]

/-- Claim C6: `calculate_kr20_reliability` returns exactly 0 whenever the
total-score variance is undefined (fewer than two rows) or zero, and every
value it returns is at most 1.  (The k = 1 `ZeroDivisionError` case, in
which no value is returned at all, is treated under claim C10.) -/
theorem kr20_guard_and_upper (k : ℕ) (rows : List (List ℚ)) :
    ((rows.length < 2 ∨ svarVal (rows.map (rowTotal k)) = 0) →
      calculate_kr20_reliability k rows = some 0) ∧
    (∀ a, calculate_kr20_reliability k rows = some a → a ≤ 1) := by
  constructor
  · rintro (h | h)
    · simp [calculate_kr20_reliability, svar, List.length_map, h]
    · by_cases h2 : rows.length < 2
      · simp [calculate_kr20_reliability, svar, List.length_map, h2]
      · simp [calculate_kr20_reliability, svar, List.length_map, h2, h]
  · intro a ha
    unfold calculate_kr20_reliability at ha
    cases hsv : svar (rows.map (rowTotal k)) with
    | none =>
      rw [hsv] at ha
      simp only [Option.some.injEq] at ha
      rw [← ha]
      norm_num
    | some v =>
      rw [hsv] at ha
      dsimp only at ha
      by_cases hv : v = 0
      · rw [if_pos hv] at ha
        simp only [Option.some.injEq] at ha
        rw [← ha]
        norm_num
      · by_cases hk1 : k = 1
        · simp [hv, hk1] at ha
        · simp only [if_neg hv, if_neg hk1, Option.some.injEq] at ha
          by_cases hk0 : k = 0
          · subst hk0
            rw [← ha]
            norm_num
          · have hk2 : 2 ≤ k := by omega
            have hn2 : 2 ≤ rows.length := by
              by_contra hc
              have hlt : (rows.map (rowTotal k)).length < 2 := by
                rw [List.length_map]
                omega
              unfold svar at hsv
              rw [if_pos hlt] at hsv
              cases hsv
            have hnotlt : ¬ (rows.map (rowTotal k)).length < 2 := by
              rw [List.length_map]
              omega
            have hveq : v = svarVal (rows.map (rowTotal k)) := by
              unfold svar at hsv
              rw [if_neg hnotlt] at hsv
              exact (Option.some_inj.mp hsv).symm
            have hSnn : 0 ≤ ∑ j ∈ Finset.range k, svarVal (colVals rows j) :=
              Finset.sum_nonneg fun j hj => svarVal_nonneg _ (by simpa [colVals] using hn2)
            have hvnn : 0 ≤ v := by
              rw [hveq]
              exact svarVal_nonneg _ (by simpa [List.length_map] using hn2)
            have hvpos : 0 < v := lt_of_le_of_ne hvnn (Ne.symm hv)
            have hle : v ≤ (k : ℚ) * ∑ j ∈ Finset.range k, svarVal (colVals rows j) := by
              rw [hveq]
              exact svarVal_rowTotals_le k rows hn2
            have hkc : (2 : ℚ) ≤ (k : ℚ) := by exact_mod_cast hk2
            have hk1c : (0 : ℚ) < (k : ℚ) - 1 := by linarith
            rw [← ha, div_mul_eq_mul_div, div_le_one hk1c]
            have hfrac : 1 ≤ (k : ℚ) * ((∑ j ∈ Finset.range k, svarVal (colVals rows j)) / v) := by
              rw [← mul_div_assoc, le_div_iff₀ hvpos]
              linarith
            have hexp : (k : ℚ) * (1 - (∑ j ∈ Finset.range k, svarVal (colVals rows j)) / v) =
                (k : ℚ) - (k : ℚ) * ((∑ j ∈ Finset.range k, svarVal (colVals rows j)) / v) := by
              ring
            linarith

/-- Claim C6 witness: the guard case of the theorem at a one-row matrix
(undefined variance). -/
theorem kr20_guard_witness : calculate_kr20_reliability 2 [[1]] = some 0 :=
  (kr20_guard_and_upper 2 [[1]]).1 (Or.inl (by decide))

/-! ## Claim C5 -/

theorem nlargestBy_length (m : ℕ) (l : List SRec) :
    (nlargestBy m l).length = min m l.length := by
  simp [nlargestBy, List.length_take, (List.perm_insertionSort descTotal l).length_eq]

theorem nsmallestBy_length (m : ℕ) (l : List SRec) :
    (nsmallestBy m l).length = min m l.length := by
  simp [nsmallestBy, List.length_take, (List.perm_insertionSort ascTotal l).length_eq]

theorem topLen_le (n : ℕ) (f : ℚ) (h0 : 0 ≤ f) (h1 : f ≤ 1) (hn : 1 ≤ n) :
    topLen n f ≤ n := by
  unfold topLen truncQ
  have hnn : (0 : ℚ) ≤ (n : ℚ) * f := by positivity
  rw [if_pos hnn]
  have hfl : ⌊(n : ℚ) * f⌋ ≤ (n : ℤ) := by
    have hup : (n : ℚ) * f ≤ (n : ℚ) := by nlinarith
    calc ⌊(n : ℚ) * f⌋ ≤ ⌊(n : ℚ)⌋ := Int.floor_le_floor hup
      _ = (n : ℤ) := Int.floor_natCast n
  omega

theorem correctFrac_bounds (l : List SRec) (j : ℕ) (h : l ≠ []) :
    0 ≤ correctFrac l j ∧ correctFrac l j ≤ 1 := by
  have hlen : 0 < l.length := List.length_pos.mpr h
  have hlq : (0 : ℚ) < (l.length : ℚ) := by exact_mod_cast hlen
  constructor
  · apply div_nonneg <;> positivity
  · rw [correctFrac, div_le_one hlq]
    have hc : correctCount l j ≤ l.length := List.countP_le_length _
    exact_mod_cast hc

/-- Claim C5 counterexample: with 7 students and quantile 1/4, the code
takes `max(1, int(7 * 0.25)) = 1` students per group because `int()`
truncates, while the claimed `max(1, round(7 * 0.25))` is 2. -/
theorem discrimination_size_counterexample :
    (nlargestBy (topLen (List.replicate 7 (⟨"", "s", 0, [], "E"⟩ : SRec)).length (1 / 4))
        (List.replicate 7 ⟨"", "s", 0, [], "E"⟩)).length = 1 ∧
    max 1 (roundHalfEven (((List.replicate 7 (⟨"", "s", 0, [], "E"⟩ : SRec)).length : ℚ) *
        (1 / 4))).toNat = 2 := by
  constructor
  · rw [nlargestBy_length]
    norm_num [topLen, truncQ]
  · norm_num [roundHalfEven]
    decide

/-- Claim C5 (amended): for a non-empty student table and a quantile
fraction in [0,1], the top and bottom groups have size exactly
`max(1, trunc(N * f))` - truncation, not rounding - and every per-item
discrimination value lies in [-1, 1]. -/
theorem discrimination_amended (l : List SRec) (f : ℚ) (j : ℕ)
    (hne : l ≠ []) (h0 : 0 ≤ f) (h1 : f ≤ 1) :
    (nlargestBy (topLen l.length f) l).length = topLen l.length f ∧
    (nsmallestBy (topLen l.length f) l).length = topLen l.length f ∧
    -1 ≤ discrimination l f j ∧ discrimination l f j ≤ 1 := by
  have hn1 : 1 ≤ l.length := List.length_pos.mpr hne
  have hle := topLen_le l.length f h0 h1 hn1
  have htl : 1 ≤ topLen l.length f := Nat.le_max_left _ _
  have hT : (nlargestBy (topLen l.length f) l).length = topLen l.length f := by
    rw [nlargestBy_length]
    omega
  have hB : (nsmallestBy (topLen l.length f) l).length = topLen l.length f := by
    rw [nsmallestBy_length]
    omega
  have hTne : nlargestBy (topLen l.length f) l ≠ [] := by
    rw [← List.length_pos, hT]
    omega
  have hBne : nsmallestBy (topLen l.length f) l ≠ [] := by
    rw [← List.length_pos, hB]
    omega
  obtain ⟨hT0, hT1⟩ := correctFrac_bounds _ j hTne
  obtain ⟨hB0, hB1⟩ := correctFrac_bounds _ j hBne
  refine ⟨hT, hB, ?_, ?_⟩ <;> unfold discrimination <;> linarith

/-- Claim C5 witness: the amended theorem applied to a one-student table. -/
theorem discrimination_amended_witness :
    -1 ≤ discrimination [(⟨"", "s", 0, [], "E"⟩ : SRec)] (1 / 4) 0 ∧
    discrimination [(⟨"", "s", 0, [], "E"⟩ : SRec)] (1 / 4) 0 ≤ 1 :=
  ⟨(discrimination_amended [⟨"", "s", 0, [], "E"⟩] (1 / 4) 0 (List.cons_ne_nil _ _)
      (by norm_num) (by norm_num)).2.2.1,
   (discrimination_amended [⟨"", "s", 0, [], "E"⟩] (1 / 4) 0 (List.cons_ne_nil _ _)
      (by norm_num) (by norm_num)).2.2.2⟩

/-! ## Claim C9 -/

theorem roundHalfEven_intCast (z : ℤ) : roundHalfEven (z : ℚ) = z := by
  unfold roundHalfEven
  rw [Int.floor_intCast]
  norm_num

/-- Claim C9 counterexample: at score 89.5 with cut points 90/80 in the
3-level configuration, the `modules/statistics.py` classifier compares the
raw score and yields B, while the `app.py` classifier rounds 89.5 to 90
first and yields A. -/
theorem achievement_rounding_counterexample :
    get_achievement_score_based (some (179 / 2)) 90 80 none none none = some "B" ∧
    appGetAchievement (some (179 / 2)) 90 80 none none none = some "A" := by
  constructor
  · norm_num [get_achievement_score_based]
  · norm_num [appGetAchievement, roundHalfEven, Int.even_iff]

/-- Claim C9 (amended): the two classifiers agree only on restricted
inputs: whenever the score is NaN or an integer (so that rounding is the
identity) and the cut-point configuration is not the
3-level-plus-not-reached case that only `app.py` implements (`cut_CD`
absent with `cut_EI` present), the two classifiers return the same band.
They differ on non-integer scores (rounding) and on the
3-level-plus-not-reached configuration. -/
theorem achievement_classifiers_amended (score : Option ℚ) (cAB cBC : ℚ)
    (cCD cDE cEI : Option ℚ)
    (hs : score = none ∨ ∃ z : ℤ, score = some (z : ℚ))
    (hc : cCD.isSome = true ∨ cEI = none) :
    get_achievement_score_based score cAB cBC cCD cDE cEI =
      appGetAchievement score cAB cBC cCD cDE cEI := by
  rcases hs with rfl | ⟨z, rfl⟩
  · rfl
  · unfold get_achievement_score_based appGetAchievement
    dsimp only
    rw [roundHalfEven_intCast]
    rcases cCD with _ | ccd
    · rcases cEI with _ | cei
      · rfl
      · rcases hc with hc | hc <;> simp at hc
    · rcases cEI with _ | cei <;> rfl

/-- Claim C9 witness: the amended theorem at the integer score 85 in the
3-level configuration. -/
theorem achievement_classifiers_witness :
    get_achievement_score_based (some ((85 : ℤ) : ℚ)) 90 80 none none none =
      appGetAchievement (some ((85 : ℤ) : ℚ)) 90 80 none none none :=
  achievement_classifiers_amended (some ((85 : ℤ) : ℚ)) 90 80 none none none
    (Or.inr ⟨85, rfl⟩) (Or.inr rfl)

/-! ## Claim C8 -/

open scoped List

instance : IsTotal SRec descTotal := ⟨fun a b => le_total b.total a.total⟩

instance : IsTrans SRec descTotal := ⟨fun _ _ _ h1 h2 => le_trans h2 h1⟩

instance : IsTotal SRec ascTotal := ⟨fun a b => le_total a.total b.total⟩

instance : IsTrans SRec ascTotal := ⟨fun _ _ _ h1 h2 => le_trans h1 h2⟩

theorem flatMap_perm_left {α β : Type} (f : α → List β) {l₁ l₂ : List α} (h : l₁ ~ l₂) :
    l₁.flatMap f ~ l₂.flatMap f := by
  rw [List.flatMap_def, List.flatMap_def]
  exact (h.map f).flatten

theorem mergedBoth_perm (g : List GRow) {ans₁ ans₂ : List AnsRow} (hp : ans₁ ~ ans₂) :
    mergedBoth ans₁ g ~ mergedBoth ans₂ g :=
  flatMap_perm_left _ hp

theorem loadAnswerSheets_perm {files₁ files₂ : List (List AnsRow)} (hp : files₁ ~ files₂) :
    loadAnswerSheets files₁ ~ loadAnswerSheets files₂ :=
  (hp.flatten).map _

/-- Two lists of records that are permutations of each other, both sorted
by a relation that is antisymmetric on total scores, and with pairwise
distinct total scores, are equal.  This is why sorting is insensitive to
the input order exactly when there are no ties. -/
theorem eq_of_perm_sorted_nodup (r : SRec → SRec → Prop)
    (hanti : ∀ a b, r a b → r b a → a.total = b.total) :
    ∀ {l₁ l₂ : List SRec}, l₁ ~ l₂ → l₁.Sorted r → l₂.Sorted r →
      (l₁.map SRec.total).Nodup → l₁ = l₂ := by
  intro l₁
  induction l₁ with
  | nil =>
    intro l₂ hp _ _ _
    exact hp.nil_eq
  | cons a t ih =>
    intro l₂ hp h₁ h₂ hnd
    cases l₂ with
    | nil => exact absurd hp.eq_nil (by simp)
    | cons b t₂ =>
      by_cases hab : a = b
      · subst hab
        rw [List.map_cons, List.nodup_cons] at hnd
        rw [ih hp.cons_inv h₁.of_cons h₂.of_cons hnd.2]
      · exfalso
        have hbmem : b ∈ t := by
          have hb : b ∈ a :: t := hp.symm.subset (List.mem_cons_self b t₂)
          rcases List.mem_cons.mp hb with h | h
          · exact absurd h.symm hab
          · exact h
        have hamem : a ∈ t₂ := by
          have ha : a ∈ b :: t₂ := hp.subset (List.mem_cons_self a t)
          rcases List.mem_cons.mp ha with h | h
          · exact absurd h hab
          · exact h
        have htot : a.total = b.total :=
          hanti a b (List.rel_of_sorted_cons h₁ b hbmem) (List.rel_of_sorted_cons h₂ a hamem)
        rw [List.map_cons, List.nodup_cons] at hnd
        exact hnd.1 (List.mem_map.mpr ⟨b, hbmem, htot.symm⟩)

theorem insertionSort_eq_of_perm (r : SRec → SRec → Prop) [DecidableRel r]
    [IsTotal SRec r] [IsTrans SRec r]
    (hanti : ∀ a b, r a b → r b a → a.total = b.total)
    {l₁ l₂ : List SRec} (hp : l₁ ~ l₂) (hnd : (l₂.map SRec.total).Nodup) :
    l₁.insertionSort r = l₂.insertionSort r := by
  apply eq_of_perm_sorted_nodup r hanti
  · exact (List.perm_insertionSort r l₁).trans (hp.trans (List.perm_insertionSort r l₂).symm)
  · exact List.sorted_insertionSort r l₁
  · exact List.sorted_insertionSort r l₂
  · have hperm : (l₁.insertionSort r).map SRec.total ~ l₂.map SRec.total :=
      ((List.perm_insertionSort r l₁).trans hp).map SRec.total
    exact hperm.nodup_iff.mpr hnd

theorem correctFrac_perm {l₁ l₂ : List SRec} (hp : l₁ ~ l₂) (j : ℕ) :
    correctFrac l₁ j = correctFrac l₂ j := by
  unfold correctFrac correctCount
  rw [hp.countP_eq, hp.length_eq]

theorem meanQ_perm {l₁ l₂ : List ℚ} (hp : l₁ ~ l₂) : meanQ l₁ = meanQ l₂ := by
  unfold meanQ
  rw [hp.sum_eq, hp.length_eq]

theorem ssd_perm {l₁ l₂ : List ℚ} (hp : l₁ ~ l₂) : ssd l₁ = ssd l₂ := by
  unfold ssd
  rw [meanQ_perm hp]
  exact (hp.map _).sum_eq

theorem svarVal_perm {l₁ l₂ : List ℚ} (hp : l₁ ~ l₂) : svarVal l₁ = svarVal l₂ := by
  unfold svarVal
  rw [ssd_perm hp, hp.length_eq]

theorem svar_perm {l₁ l₂ : List ℚ} (hp : l₁ ~ l₂) : svar l₁ = svar l₂ := by
  unfold svar
  rw [hp.length_eq, svarVal_perm hp]

theorem kr20_perm (k : ℕ) {rows₁ rows₂ : List (List ℚ)} (hp : rows₁ ~ rows₂) :
    calculate_kr20_reliability k rows₁ = calculate_kr20_reliability k rows₂ := by
  unfold calculate_kr20_reliability
  rw [svar_perm (hp.map (rowTotal k))]
  cases svar (rows₂.map (rowTotal k)) with
  | none => rfl
  | some v =>
    dsimp only
    have hcol : ∀ j, svarVal (colVals rows₁ j) = svarVal (colVals rows₂ j) := by
      intro j
      unfold colVals
      exact svarVal_perm (hp.map _)
    simp only [hcol]

theorem discrimination_perm {l₁ l₂ : List SRec} (hp : l₁ ~ l₂)
    (hnd : (l₂.map SRec.total).Nodup) (f : ℚ) (j : ℕ) :
    discrimination l₁ f j = discrimination l₂ f j := by
  unfold discrimination nlargestBy nsmallestBy
  rw [insertionSort_eq_of_perm descTotal (fun a b h1 h2 => le_antisymm h2 h1) hp hnd,
    insertionSort_eq_of_perm ascTotal (fun a b h1 h2 => le_antisymm h1 h2) hp hnd,
    hp.length_eq]

/-- A one-row answer-sheet file: Kim, total 10, item 1 correct. -/
def fileA : List AnsRow := [⟨"", "Kim", some 10, ["."]⟩]

/-- A one-row answer-sheet file: Lee, total 10 (tied with Kim), item 1
wrong. -/
def fileB : List AnsRow := [⟨"", "Lee", some 10, ["1"]⟩]

/-- A one-row answer-sheet file: Park, total 0, item 1 wrong. -/
def fileC : List AnsRow := [⟨"", "Park", some 0, ["1"]⟩]

/-- A roster containing Kim, Lee and Park. -/
def rosterKLP : List GRow := [⟨"", "Kim", some "A"⟩, ⟨"", "Lee", some "A"⟩, ⟨"", "Park", some "B"⟩]

/-- Claim C8 counterexample: swapping the first two answer-sheet files
(Kim and Lee have tied total scores) changes the discrimination index of
item 1 from 1 to 0, because `nlargest` breaks the tie by row order.  So
permuting the input files does change a derived statistic. -/
theorem pipeline_perm_counterexample :
    ([fileB, fileA, fileC] : List (List AnsRow)) ~ [fileA, fileB, fileC] ∧
    discrimination (mergedBoth (loadAnswerSheets [fileB, fileA, fileC]) rosterKLP) (1 / 4) 0 ≠
      discrimination (mergedBoth (loadAnswerSheets [fileA, fileB, fileC]) rosterKLP) (1 / 4) 0 := by
  constructor
  · exact List.Perm.swap fileA fileB [fileC]
  · have e1 : mergedBoth (loadAnswerSheets [fileB, fileA, fileC]) rosterKLP =
        [⟨"", "Lee", 10, ["1"], "A"⟩, ⟨"", "Kim", 10, ["."], "A"⟩, ⟨"", "Park", 0, ["1"], "B"⟩] := by
      decide
    have e2 : mergedBoth (loadAnswerSheets [fileA, fileB, fileC]) rosterKLP =
        [⟨"", "Kim", 10, ["."], "A"⟩, ⟨"", "Lee", 10, ["1"], "A"⟩, ⟨"", "Park", 0, ["1"], "B"⟩] := by
      decide
    rw [e1, e2]
    have d1 : discrimination
        [(⟨"", "Lee", 10, ["1"], "A"⟩ : SRec), ⟨"", "Kim", 10, ["."], "A"⟩,
          ⟨"", "Park", 0, ["1"], "B"⟩] (1 / 4) 0 = 0 := by
      norm_num [discrimination, nlargestBy, nsmallestBy, topLen, truncQ, correctFrac,
        correctCount, descTotal, ascTotal, List.countP_cons]
    have d2 : discrimination
        [(⟨"", "Kim", 10, ["."], "A"⟩ : SRec), ⟨"", "Lee", 10, ["1"], "A"⟩,
          ⟨"", "Park", 0, ["1"], "B"⟩] (1 / 4) 0 = 1 := by
      norm_num [discrimination, nlargestBy, nsmallestBy, topLen, truncQ, correctFrac,
        correctCount, descTotal, ascTotal, List.countP_cons]
      decide
    rw [d1, d2]
    norm_num

/-- Claim C8 (amended): when the merged records have pairwise-distinct
total scores, permuting the answer-sheet files leaves the merged table
unchanged as a multiset and leaves difficulty, discrimination and KR-20
reliability unchanged.  With tied total scores the discrimination index
can change, as the counterexample shows. -/
theorem pipeline_perm_amended (files files' : List (List AnsRow)) (g : List GRow)
    (f : ℚ) (j : ℕ) (hp : files' ~ files)
    (hnd : ((mergedBoth (loadAnswerSheets files) g).map SRec.total).Nodup) :
    mergedBoth (loadAnswerSheets files') g ~ mergedBoth (loadAnswerSheets files) g ∧
    correctFrac (mergedBoth (loadAnswerSheets files') g) j =
      correctFrac (mergedBoth (loadAnswerSheets files) g) j ∧
    discrimination (mergedBoth (loadAnswerSheets files') g) f j =
      discrimination (mergedBoth (loadAnswerSheets files) g) f j ∧
    calculate_kr20_reliability 16 ((mergedBoth (loadAnswerSheets files') g).map binRow) =
      calculate_kr20_reliability 16 ((mergedBoth (loadAnswerSheets files) g).map binRow) := by
  have hm : mergedBoth (loadAnswerSheets files') g ~ mergedBoth (loadAnswerSheets files) g :=
    mergedBoth_perm g (loadAnswerSheets_perm hp)
  exact ⟨hm, correctFrac_perm hm j, discrimination_perm hm hnd f j, kr20_perm 16 (hm.map binRow)⟩

/-- Claim C8 witness: the amended theorem applied to two files with
distinct total scores. -/
theorem pipeline_perm_witness :
    mergedBoth (loadAnswerSheets [fileC, fileA]) rosterKLP ~
      mergedBoth (loadAnswerSheets [fileA, fileC]) rosterKLP :=
  (pipeline_perm_amended [fileA, fileC] [fileC, fileA] rosterKLP (1 / 4) 0
    (List.Perm.swap fileA fileC []) (by decide)).1
